import Mathlib

/-!
Verification of the degiro-dashboard ledger-to-portfolio reconciliation engine.

Strings are modelled as `List Char`; Python's `str` operations used by the
source (`in`, `.lower()`, `.replace`, `.strip`) are embedded as executable
functions on `List Char`.  Numeric values that the source holds as Python
floats are modelled as rationals.  Pandas DataFrames are modelled as lists of
records; `dict`s keyed by ISIN are modelled as association lists updated at
the first matching key (the folds below only ever create dictionaries with
distinct keys, so this is exact).
-/

/-- Strings of the source program, as lists of characters. -/
abbrev Str : Type := List Char

/-- Coerce a Lean string literal into the `List Char` model. -/
def str (s : String) : Str := s.data

/-- `isPfx n s` is true iff `n` is a prefix of `s` (used to implement Python's
substring test). -/
def isPfx : Str → Str → Bool
  | [], _ => true
  | _ :: _, [] => false
  | a :: as, b :: bs => a = b && isPfx as bs

/-- Python's `needle in haystack` substring test. -/
def containsLC (needle : Str) : Str → Bool
  | [] => needle.isEmpty
  | c :: t => isPfx needle (c :: t) || containsLC needle t

/-- Python's `str.lower` restricted to the characters that occur in this
ledger format: ASCII letters plus the accented uppercase letters of the
Spanish descriptions. -/
def pyLowerChar (c : Char) : Char :=
  if c = 'Á' then 'á' else if c = 'É' then 'é' else if c = 'Í' then 'í'
  else if c = 'Ó' then 'ó' else if c = 'Ú' then 'ú' else if c = 'Ñ' then 'ñ'
  else if c = 'Ü' then 'ü' else c.toLower

/-- Python's `str.lower` on the model. -/
def pyLowerStr (s : Str) : Str := s.map pyLowerChar

/-- Python's `str.strip` (whitespace trim at both ends). -/
def trimLC (s : Str) : Str :=
  ((s.dropWhile Char.isWhitespace).reverse.dropWhile Char.isWhitespace).reverse

/-- Python's `str.replace` for a single-character pattern, the only form the
source uses (`.replace(".", "")` and `.replace(",", ".")`). -/
def pyReplaceChar (a : Char) (r : Str) (s : Str) : Str :=
  s.flatMap (fun c => if c = a then r else [c])

theorem isPfx_iff (n : Str) : ∀ s : Str, isPfx n s = true ↔ ∃ r, s = n ++ r := by
  induction n with
  | nil =>
      intro s
      constructor
      · intro _; exact ⟨s, rfl⟩
      · intro _; rfl
  | cons a as ih =>
      intro s
      cases s with
      | nil => simp [isPfx]
      | cons b bs =>
          simp only [isPfx, Bool.and_eq_true, decide_eq_true_eq, ih]
          constructor
          · rintro ⟨rfl, r, rfl⟩; exact ⟨r, rfl⟩
          · rintro ⟨r, h⟩
            injection h with h1 h2
            exact ⟨h1.symm, r, h2⟩

theorem containsLC_iff (n : Str) : ∀ s : Str,
    containsLC n s = true ↔ ∃ l r, s = l ++ n ++ r := by
  intro s
  induction s with
  | nil =>
      constructor
      · intro h
        cases n with
        | nil => exact ⟨[], [], rfl⟩
        | cons a as => simp [containsLC, List.isEmpty] at h
      · rintro ⟨l, r, h⟩
        cases l <;> cases n <;> first | rfl | simp_all
  | cons c t ih =>
      simp only [containsLC, Bool.or_eq_true, isPfx_iff, ih]
      constructor
      · rintro (⟨r, h⟩ | ⟨l, r, rfl⟩)
        · exact ⟨[], r, by simp [h]⟩
        · exact ⟨c :: l, r, rfl⟩
      · rintro ⟨l, r, h⟩
        cases l with
        | nil => exact Or.inl ⟨r, by simpa using h⟩
        | cons x xs =>
            injection h with h1 h2
            exact Or.inr ⟨xs, r, h2⟩

theorem containsLC_trans {a b s : Str} (h1 : containsLC a b = true)
    (h2 : containsLC b s = true) : containsLC a s = true := by
  rw [containsLC_iff] at h1 h2 ⊢
  obtain ⟨l1, r1, rfl⟩ := h1
  obtain ⟨l2, r2, rfl⟩ := h2
  exact ⟨l2 ++ l1, r1 ++ r2, by simp⟩

theorem length_le_of_containsLC {n s : Str} (h : containsLC n s = true) :
    n.length ≤ s.length := by
  rw [containsLC_iff] at h
  obtain ⟨l, r, rfl⟩ := h
  simp
  omega

theorem pyReplaceChar_delete (a : Char) (s : Str) :
    pyReplaceChar a [] s = s.filter (fun c => !(c = a : Bool)) := by
  induction s with
  | nil => rfl
  | cons c t ih =>
      by_cases h : c = a <;> simp [pyReplaceChar, List.flatMap] at ih ⊢ <;>
        simp [h, List.filter_cons, ih]

theorem pyReplaceChar_map (a d : Char) (s : Str) :
    pyReplaceChar a [d] s = s.map (fun c => if c = a then d else c) := by
  induction s with
  | nil => rfl
  | cons c t ih =>
      by_cases h : c = a <;> simp [pyReplaceChar, List.flatMap] at ih ⊢ <;>
        simp [h, ih]

theorem pyReplaceChar_id_of_not_mem (a : Char) (d : Str) {s : Str}
    (h : containsLC [a] s = false) : pyReplaceChar a d s = s := by
  induction s with
  | nil => rfl
  | cons c t ih =>
      simp only [containsLC, isPfx, Bool.or_eq_false_iff, Bool.and_eq_false_iff] at h
      obtain ⟨h1, h2⟩ := h
      have hac : ¬ (a = c) := by
        rcases h1 with h1 | h1
        · simpa using h1
        · simp [isPfx] at h1
      have hca : ¬ (c = a) := fun hh => hac hh.symm
      simp [pyReplaceChar, List.flatMap] at ih ⊢
      simp [hca, ih h2]

/-! ### Field extractor: price parsing (`extract_price_from_*_description`) -/

/-- Character class `[\d,\.]` of the price regex. -/
def isTokChar (c : Char) : Bool := c.isDigit || c = ',' || c = '.'

/-- Split a string at every `'.'` (helper for modelling Python `float`). -/
def splitOnDot : Str → List Str
  | [] => [[]]
  | c :: t =>
      let r := splitOnDot t
      if c = '.' then [] :: r
      else
        match r with
        | [] => [[c]]
        | h :: t2 => (c :: h) :: t2

/-- Numeric value of a digit string. -/
def natOfDigits (ds : Str) : ℕ :=
  ds.foldl (fun a c => 10 * a + (c.toNat - '0'.toNat)) 0

/-- Python's `float()` on the strings reachable here (digits and dots only;
anything else raises, which the source catches and turns into `None`). -/
def parseDecimal (s : Str) : Option ℚ :=
  match splitOnDot s with
  | [ds] =>
      if ds ≠ [] ∧ ds.all Char.isDigit then some (natOfDigits ds : ℚ) else none
  | [ip, fp] =>
      if (ip ≠ [] ∨ fp ≠ []) ∧ ip.all Char.isDigit ∧ fp.all Char.isDigit then
        some (mkRat (natOfDigits ip * 10 ^ fp.length + natOfDigits fp) (10 ^ fp.length))
      else none
  | _ => none

/-- The separator normalization of `extract_price_from_buys_description` /
`extract_price_from_sells_description`: if both `.` and `,` appear, drop the
dots and turn the comma into a dot; otherwise turn any comma into a dot. -/
def normalizePrice (s : Str) : Str :=
  if containsLC (str ".") s && containsLC (str ",") s then
    pyReplaceChar ',' (str ".") (pyReplaceChar '.' [] s)
  else
    pyReplaceChar ',' (str ".") s

/-- Follows the spec's words (§4.3 numeric normalization), independent of the
implementation: when both separators occur, `.` is a thousands separator to
strip and `,` becomes the decimal point; when only `,` occurs it is the
decimal point. -/
def specNormalizePrice (s : Str) : Str :=
  if containsLC (str ".") s && containsLC (str ",") s then
    (s.filter (fun c => !(c = '.' : Bool))).map (fun c => if c = ',' then '.' else c)
  else if containsLC (str ",") s then
    s.map (fun c => if c = ',' then '.' else c)
  else s

/-- Parse one captured price token, as the source does. -/
def parsePriceToken (s : Str) : Option ℚ := parseDecimal (normalizePrice s)

/-- After the token, the regex requires `\s+` then one of `USD|EUR|GBP`. -/
def currencyFollows (s : Str) : Bool :=
  let ws := s.takeWhile Char.isWhitespace
  let rest := s.dropWhile Char.isWhitespace
  !ws.isEmpty &&
    (isPfx (str "USD") rest || isPfx (str "EUR") rest || isPfx (str "GBP") rest)

/-- `re.search(r"@([\d,\.]+)\s+(?:USD|EUR|GBP)", s)`: leftmost `@` whose
following maximal `[\d,\.]` run is nonempty and is followed by whitespace and
a currency code; returns the captured run. -/
def findPriceToken : Str → Option Str
  | [] => none
  | c :: t =>
      if c = '@' then
        let tok := t.takeWhile isTokChar
        if !tok.isEmpty && currencyFollows (t.dropWhile isTokChar) then some tok
        else findPriceToken t
      else findPriceToken t

/-- `extract_price_from_buys_description` (identical body in the sells
variant): find the `@price CUR` token and parse it. -/
def extractPriceFromBuysDescription (desc : Str) : Option ℚ :=
  (findPriceToken desc).bind parsePriceToken

/-- `extract_price_from_sells_description` — same code as the buys variant. -/
def extractPriceFromSellsDescription (desc : Str) : Option ℚ :=
  (findPriceToken desc).bind parsePriceToken


/-! ### Transaction classifier, `generate_datasets.py` pipeline
(`process_description`, `process_transaction`). -/

/-- Body of `process_description` after its initial `x = str(x).lower()`:
the argument is the already-lowercased description. -/
def processDescriptionCore (x : Str) : Str :=
  if containsLC (str "transferir a su cuenta de efectivo") x then
    str "Transferencia a cuenta de efectivo"
  else if containsLC (str "transferir desde su cuenta de efectivo ") x then
    str "Transferencia desde cuenta de efectivo"
  else if containsLC (str "compra ") x && !containsLC (str "stock split") x &&
      !containsLC (str "fusión") x && !containsLC (str "escisión") x &&
      !containsLC (str "cambio de producto") x && !containsLC (str "cambio de isin") x &&
      !containsLC (str "conversión fondos del mercado monetario") x then
    str "Compra"
  else if containsLC (str "venta ") x && !containsLC (str "stock split") x &&
      !containsLC (str "fusión") x && !containsLC (str "escisión") x &&
      !containsLC (str "cambio de producto") x && !containsLC (str "cambio de isin") x &&
      !containsLC (str "conversión fondos del mercado monetario") x then
    str "Venta"
  else if containsLC (str "venta ") x && containsLC (str "stock split") x then
    str "Venta - Stock split"
  else if containsLC (str "compra ") x && containsLC (str "stock split") x then
    str "Compra - Stock split"
  else if containsLC (str "venta ") x && containsLC (str "conversión fondos del mercado monetario") x then
    str "Venta - Conversión fondos del mercado monetario"
  else if containsLC (str "compra ") x && containsLC (str "conversión fondos del mercado monetario") x then
    str "Compra - Conversión fondos del mercado monetario"
  else if containsLC (str "venta ") x && containsLC (str "fusión") x then
    str "Venta - Fusión"
  else if containsLC (str "compra ") x && containsLC (str "fusión") x then
    str "Compra - Fusión"
  else if containsLC (str "venta ") x && containsLC (str "escisión") x then
    str "Venta - Escisión"
  else if containsLC (str "compra ") x && containsLC (str "escisión") x then
    str "Compra - Escisión"
  else if containsLC (str "venta ") x && containsLC (str "cambio de isin") x then
    str "Venta - Cambio de ISIN"
  else if containsLC (str "compra ") x && containsLC (str "cambio de isin") x then
    str "Compra - Cambio de ISIN"
  else if containsLC (str "venta ") x && containsLC (str "cambio de producto") x then
    str "Venta - Cambio de producto"
  else if containsLC (str "compra ") x && containsLC (str "cambio de producto") x then
    str "Compra - Cambio de producto"
  else if containsLC (str "comisión de conectividad ") x then
    str "Comisión de conectividad"
  else if containsLC (str "flatex deposit") x then
    str "Ingreso a DeGiro desde ING"
  else if x = str "ingreso" then
    str "Ingreso a DeGiro desde ING"
  else x

/-- `process_description` of `generate_datasets.py`. -/
def processDescription (x : Str) : Str := processDescriptionCore (pyLowerStr x)

/-- Body of `process_transaction` after its initial `x = x.lower()`. -/
def processTransactionCore (x : Str) : Str :=
  if containsLC (str "compra") x then str "Compra"
  else if containsLC (str "venta") x then str "Venta"
  else if containsLC (str "venta") x && containsLC (str "isin") x then str "Cambio Corporativo"
  else if containsLC (str "venta") x && containsLC (str "producto") x then str "Cambio Corporativo"
  else if containsLC (str "venta") x && containsLC (str "escisión") x then str "Cambio Corporativo"
  else if containsLC (str "venta") x && containsLC (str "fusión") x then str "Cambio Corporativo"
  else if containsLC (str "stock split") x then str "Cambio Corporativo"
  else if containsLC (str "cambio de divisa") x then str "Cambio de Divisa"
  else if containsLC (str "cash sweep transfer") x then str "Transferencia Interna"
  else if containsLC (str "ingreso") x then str "Ingreso"
  else if containsLC (str "withdrawal") x then str "Retiro"
  else if containsLC (str "costes") x || containsLC (str "coste de la acción") x then str "Comisión"
  else if containsLC (str "stamp duty") x then str "Impuesto"
  else if containsLC (str "dividendo") x then str "Dividendo"
  else str "Otro"

/-- `process_transaction` of `generate_datasets.py`. -/
def processTransaction (x : Str) : Str := processTransactionCore (pyLowerStr x)

/-- The `description` column produced by `preprocess_data`
(`process_description` then `.str.lower()`). -/
def gdDescriptionLabel (x : Str) : Str := pyLowerStr (processDescription x)

/-- The `category` column produced by `preprocess_data`
(`process_transaction` of the lowercased label, then `.str.lower()`). -/
def gdCategory (x : Str) : Str := pyLowerStr (processTransaction (gdDescriptionLabel x))

/-! ### Transaction classifier, `degiro_processor_pg.py`
(`categorize_transactions`). -/

/-- The regex `a.*b`: an occurrence of `a` followed (disjointly) by an
occurrence of `b`. -/
def containsInOrder (a b : Str) : Str → Bool
  | [] => false
  | c :: t =>
      (isPfx a (c :: t) && containsLC b ((c :: t).drop a.length)) || containsInOrder a b t

/-- The normalized description the PG classifier matches on
(`.str.lower().str.strip()`). -/
def pgDesc (x : Str) : Str := trimLC (pyLowerStr x)

/-- `buy_patterns = [r"compra", r"buy", r"escisión.*compra"]` under `re.search`. -/
def pgBuyMask (x : Str) : Bool :=
  containsLC (str "compra") x || containsLC (str "buy") x ||
    containsInOrder (str "escisión") (str "compra") x

/-- `sell_patterns = [r"venta", r"sell"]`. -/
def pgSellMask (x : Str) : Bool :=
  containsLC (str "venta") x || containsLC (str "sell") x

/-- `dividend_patterns = [r"dividend", r"dividendo", r"div\.", r"distribution"]`. -/
def pgDividendMask (x : Str) : Bool :=
  containsLC (str "dividend") x || containsLC (str "dividendo") x ||
    containsLC (str "div.") x || containsLC (str "distribution") x

/-- `deposit_patterns = [r"depósito", r"deposit", r"transferencia", r"transfer"]`. -/
def pgDepositMask (x : Str) : Bool :=
  containsLC (str "depósito") x || containsLC (str "deposit") x ||
    containsLC (str "transferencia") x || containsLC (str "transfer") x

/-- `fee_patterns = [r"comisión", r"commission", r"fee", r"cargo", r"coste", r"cost"]`. -/
def pgFeeMask (x : Str) : Bool :=
  containsLC (str "comisión") x || containsLC (str "commission") x ||
    containsLC (str "fee") x || containsLC (str "cargo") x ||
    containsLC (str "coste") x || containsLC (str "cost") x

/-- The list of category buckets of `categorize_transactions` that receive a
record whose normalized description is `x` (the five masks are applied
independently; there is no fallback bucket). -/
def pgBuckets (x : Str) : List Str :=
  ([(str "buys", pgBuyMask x), (str "sells", pgSellMask x),
    (str "dividends", pgDividendMask x), (str "deposits", pgDepositMask x),
    (str "fees", pgFeeMask x)].filter (fun p => p.2)).map (fun p => p.1)


/-! ### Dividend verification (`verify_dividends`) -/

/-- One dividend row as seen by `verify_dividends`: the ISIN (from which
`preprocess_data` derives `country`), the product name, and the normalized
description. -/
structure DivRow where
  isin : Option Str
  product : Str
  description : Str
deriving DecidableEq

/-- `country` column of `preprocess_data`: first two characters of the ISIN,
`"None"` when the ISIN is missing. -/
def countryOf (r : DivRow) : Str :=
  match r.isin with
  | some i => i.take 2
  | none => str "None"

/-- `verificar_grupo` applied to one nonempty `(date, product)` group,
`first :: rest`, followed by the `fillna("unverified")`: `iloc[0]` supplies
the country and product, the group is verified when the US two-row
dividend/withholding pattern matches (unless the product is the Alibaba
exception) or when a Liberia/Alibaba group has exactly one row. -/
def verifyGroupStatus (first : DivRow) (rest : List DivRow) : Str :=
  let g := first :: rest
  let product := pyLowerStr first.product
  let descs := g.map (fun r => pyLowerStr r.description)
  if countryOf first = str "US" ∧ ¬ containsLC (str "alibaba") product = true then
    if g.length = 2 ∧ (str "dividendo") ∈ descs ∧ (str "retención del dividendo") ∈ descs then
      str "verified"
    else str "unverified"
  else if countryOf first = str "LR" ∨ containsLC (str "alibaba") product = true then
    if g.length = 1 then str "verified" else str "unverified"
  else str "unverified"


/-! ### Currency conversion (`apply_currency_conversion_rates`,
`enrich_with_currency_conversion_rates`, and the PG loader's `amount_EUR`). -/

/-- Round half-to-even at two decimal places, the effect of numpy's
`.round(2)` on the exact rational value: computed on the integer numerator
and denominator. -/
def roundHalfEven2 (q : ℚ) : ℚ :=
  let n : ℤ := q.num * 100
  let d : ℤ := (q.den : ℤ)
  let f : ℤ := n.fdiv d
  let t : ℤ := 2 * (n - f * d)
  let r : ℤ := if t < d then f else if d < t then f + 1 else if f % 2 = 0 then f else f + 1
  mkRat r 100

/-- `amount_EUR` of `apply_currency_conversion_rates`:
`np.where(currency == "EUR", amount, amount / EUR_to_USD).round(2)`.
The same expression computes `balance_EUR` from the balance columns. -/
def gdAmountEUR (amount : ℚ) (currency : Str) (rate : ℚ) : ℚ :=
  roundHalfEven2 (if currency = str "EUR" then amount else amount / rate)

/-- `degiro_processor_pg.load_degiro_data` line 81: `df["amount_EUR"] = df["amount"]`
(no conversion; line 82 does the same for the balance). -/
def pgAmountEUR (amount : ℚ) : ℚ := amount

/-- Follows the claim's words: `amount_eur` equals the raw amount unchanged
when the currency is EUR, and the raw amount converted by the matched
exchange rate when it is USD. -/
def specConvertedAmount (amount : ℚ) (currency : Str) (rate : ℚ) : ℚ :=
  if currency = str "EUR" then amount else amount / rate

/-- First exchange rate recorded for a date (the `merge(..., on="date",
how="left")` of `enrich_with_currency_conversion_rates`). -/
def ratesLookup (rates : List (ℕ × ℚ)) (d : ℕ) : Option ℚ :=
  (rates.find? (fun p => p.1 = d)).map (fun p => p.2)

/-- Pandas `Series.ffill` with the value carried in from earlier rows. -/
def ffillAux (carry : Option ℚ) : List (Option ℚ) → List (Option ℚ)
  | [] => []
  | none :: xs => carry :: ffillAux carry xs
  | some v :: xs => some v :: ffillAux (some v) xs

/-- `df["EUR_to_USD"].ffill()`. -/
def ffill (xs : List (Option ℚ)) : List (Option ℚ) := ffillAux none xs

/-- The per-row `EUR_to_USD` column after the merge and the forward fill. -/
def gdRateColumn (rates : List (ℕ × ℚ)) (dates : List ℕ) : List (Option ℚ) :=
  ffill (dates.map (ratesLookup rates))

/-- The latest `some` value of a list of options (`none` if there is none). -/
def lastSome (xs : List (Option ℚ)) : Option ℚ :=
  xs.foldl (fun a b => match b with | some v => some v | none => a) none


/-! ### Holdings reconciler, `generate_datasets.py`
(`create_df_buys` validity + the netting loop of `generate_current_stock_values`). -/

/-- One row of `df_buys`: ISIN and product columns, the raw description the
shares/price extractors ran on, the extracted `shares` (None when
unparsable), and the converted EUR amount. -/
structure GdBuyRow where
  isin : Str
  product : Str
  original_description : Str
  shares : Option ℕ
  amount_EUR : ℚ
deriving DecidableEq

/-- One row of `df_sells`, as used by the netting loop. -/
structure GdSellRow where
  isin : Str
  shares : Option ℕ
deriving DecidableEq

/-- `row.get("shares", 0) or 0`: a missing share count counts as 0. -/
def gdShares (s : Option ℕ) : ℕ := s.getD 0

/-- The `is_valid` column of `create_df_buys`:
`row["ISIN"] in row["original_description"] and row["amount_EUR"] < 0`. -/
def gdIsValid (r : GdBuyRow) : Bool :=
  containsLC r.isin r.original_description && decide (r.amount_EUR < 0)

/-- One value of the `net_positions` dict. -/
structure GdPos where
  company_name : Str
  net_shares : ℤ
deriving DecidableEq

/-- Lookup in the insertion-ordered dict model (first matching key). -/
def posLookup (k : Str) : List (Str × GdPos) → Option GdPos
  | [] => none
  | e :: t => if e.1 = k then some e.2 else posLookup k t

/-- Add `n` to the net shares stored under key `k` (first matching entry in
the dict model; keys are unique in every dict the folds build). -/
def posAddShares (k : Str) (n : ℤ) : List (Str × GdPos) → List (Str × GdPos)
  | [] => []
  | e :: t =>
      if e.1 = k then (e.1, ⟨e.2.company_name, e.2.net_shares + n⟩) :: t
      else e :: posAddShares k n t

/-- One iteration of the buys loop: create the entry on first sight of the
ISIN (keeping that row's product as `company_name`), then add the shares. -/
def gdApplyBuy (pos : List (Str × GdPos)) (r : GdBuyRow) : List (Str × GdPos) :=
  match posLookup r.isin pos with
  | some _ => posAddShares r.isin (gdShares r.shares) pos
  | none => pos ++ [(r.isin, ⟨r.product, (gdShares r.shares : ℤ)⟩)]

/-- One iteration of the sells loop: subtract only if the ISIN is already a
key of `net_positions`. -/
def gdApplySell (pos : List (Str × GdPos)) (r : GdSellRow) : List (Str × GdPos) :=
  match posLookup r.isin pos with
  | some _ => posAddShares r.isin (-(gdShares r.shares : ℤ)) pos
  | none => pos

/-- `net_positions` after both loops of `generate_current_stock_values`
(buys restricted to `is_valid == True`). -/
def gdNetPositions (buys : List GdBuyRow) (sells : List GdSellRow) : List (Str × GdPos) :=
  sells.foldl gdApplySell ((buys.filter gdIsValid).foldl gdApplyBuy [])

/-- `held_stocks`: the ISINs whose net share count stayed positive. -/
def gdHeldStocks (buys : List GdBuyRow) (sells : List GdSellRow) : List (Str × GdPos) :=
  (gdNetPositions buys sells).filter (fun e => 0 < e.2.net_shares)

/-- Sum of extracted shares over the rows of a buy list carrying ISIN `k`. -/
def gdBuySharesSumAt (k : Str) (buys : List GdBuyRow) : ℤ :=
  ((buys.filter (fun r => decide (r.isin = k))).map (fun r => (gdShares r.shares : ℤ))).sum

/-- Sum of shares over the valid buy rows carrying ISIN `k`. -/
def gdValidBuySharesSum (k : Str) (buys : List GdBuyRow) : ℤ :=
  gdBuySharesSumAt k (buys.filter gdIsValid)

/-- Sum of shares over all sell rows carrying ISIN `k`. -/
def gdSellSharesSum (k : Str) (sells : List GdSellRow) : ℤ :=
  ((sells.filter (fun r => decide (r.isin = k))).map (fun r => (gdShares r.shares : ℤ))).sum

/-- A successful `get_stock_price_finnhub` result. -/
structure GdPriceData where
  company_name : Str
  symbol : Str
  price : ℚ
  currency : Str
  source : Str
deriving DecidableEq

/-- One row of `current_stock_values.csv` (the wall-clock fetch date and
timestamp columns carry no reconciliation content and are not modelled). -/
structure StockValue where
  isin : Str
  company_name : Str
  symbol : Option Str
  current_price : Option ℚ
  currency : Option Str
  shares_held : ℤ
  position_value : Option ℚ
  source : Str
deriving DecidableEq

/-- The body of the price-fetch loop for one held stock, with the price
lookup (`get_stock_price_finnhub`, keyed by ISIN) abstracted as an oracle:
on success the entry carries the fetched price and
`position_value = net_shares * price`; on failure every price field and
`position_value` are None and `source = "failed"`. -/
def gdBuildStockValue (oracle : Str → Option GdPriceData) (e : Str × GdPos) : StockValue :=
  match oracle e.1 with
  | some p =>
      { isin := e.1
        company_name := if p.company_name ≠ [] then p.company_name else e.2.company_name
        symbol := some p.symbol
        current_price := some p.price
        currency := some p.currency
        shares_held := e.2.net_shares
        position_value := some (e.2.net_shares * p.price)
        source := p.source }
  | none =>
      { isin := e.1
        company_name := e.2.company_name
        symbol := none
        current_price := none
        currency := none
        shares_held := e.2.net_shares
        position_value := none
        source := str "failed" }

/-- The `stock_values` list written by `generate_current_stock_values`: the
loop appends one entry per held stock whether or not its lookup succeeds. -/
def gdStockValues (oracle : Str → Option GdPriceData) (buys : List GdBuyRow)
    (sells : List GdSellRow) : List StockValue :=
  (gdHeldStocks buys sells).map (gdBuildStockValue oracle)

/-! ### Holdings reconciler, `degiro_processor_pg.py` (`calculate_holdings`). -/

/-- One row of the PG `buys`/`sells` buckets after `_process_trades`
(`shares` is already `fillna(0).astype(int)`). -/
structure PgRow where
  isin : Option Str
  product : Str
  original_description : Str
  shares : ℕ
  amount_EUR : ℚ
deriving DecidableEq

/-- `_process_trades` line 169: `is_valid = (shares > 0) & (abs(amount_EUR) > 0)`.
`calculate_holdings` never consults it. -/
def pgIsValid (r : PgRow) : Prop := 0 < r.shares ∧ 0 < |r.amount_EUR|

instance (r : PgRow) : Decidable (pgIsValid r) := by unfold pgIsValid; infer_instance

/-- A `current_prices` entry from `get_current_prices` (always
`currency="USD"`, `source="finnhub"` in the source; kept as data). -/
structure PgPrice where
  price : ℚ
  currency : Str
  source : Str
deriving DecidableEq

/-- One holding dict appended by `calculate_holdings` (wall-clock fetch
fields are not modelled). -/
structure PgHolding where
  isin : Str
  company_name : Str
  symbol : Option Str
  shares_held : ℤ
  current_price : Option ℚ
  currency : Str
  position_value : ℚ
  source : Str
deriving DecidableEq

/-- The regex `([A-Z]{1,5})` on the product name: first run of uppercase
letters, capped at five characters; None when the name has none. -/
def pgExtractSymbol : Str → Option Str
  | [] => none
  | c :: t =>
      if c.isUpper then some (((c :: t).takeWhile Char.isUpper).take 5)
      else pgExtractSymbol t

/-- Attempt of the regex `\(([A-Z]{2}[A-Z0-9]{10})\)` right after a `(`. -/
def pgIsinAfterParen (l : Str) : Option Str :=
  let tok := l.take 12
  if tok.length = 12 ∧ (tok.take 2).all Char.isUpper ∧
      (tok.drop 2).all (fun c => c.isUpper || c.isDigit) ∧
      (l.drop 12).head? = some ')' then
    some tok
  else none

/-- `re.search(r"\(([A-Z]{2}[A-Z0-9]{10})\)", s)`: first parenthesised
12-character ISIN-shaped token. -/
def pgFindIsin : Str → Option Str
  | [] => none
  | c :: t =>
      if c = '(' then
        match pgIsinAfterParen t with
        | some tok => some tok
        | none => pgFindIsin t
      else pgFindIsin t

/-- `calculate_holdings` lines 243-247: when the ISIN column is entirely
null, re-extract ISINs from the descriptions. -/
def pgAdjustBuys (buys : List PgRow) : List PgRow :=
  if buys.all (fun r => r.isin = none) then
    buys.map (fun r => { r with isin := pgFindIsin r.original_description })
  else buys

/-- Keep the first occurrence of every element (key order of the grouped
frame; pandas sorts group keys, which only permutes the output rows, and no
stated property depends on row order). -/
def dedupFirst : List Str → List Str
  | [] => []
  | x :: t => x :: (dedupFirst t).filter (fun y => !(y = x : Bool))

/-- Sum of `shares` over the buy rows whose ISIN column is `some k`
(the `groupby(["ISIN"]).agg({"shares": "sum"})` of the buys). -/
def pgBuySharesSum (k : Str) (buys : List PgRow) : ℤ :=
  ((buys.filter (fun r => decide (r.isin = some k))).map (fun r => (r.shares : ℤ))).sum

/-- Sum of `shares` over the sell rows whose ISIN column is `some k`
(`sells.groupby(["ISIN"])` drops rows with a null ISIN). -/
def pgSellSharesSum (k : Str) (sells : List PgRow) : ℤ :=
  ((sells.filter (fun r => decide (r.isin = some k))).map (fun r => (r.shares : ℤ))).sum

/-- Sum of `shares` over the buy rows that are `is_valid` and carry ISIN `k`
(the quantity the claimed round-trip formula refers to). -/
def pgValidBuySharesSum (k : Str) (buys : List PgRow) : ℤ :=
  pgBuySharesSum k (buys.filter (fun r => decide (pgIsValid r)))

/-- `"product": "first"` of the ISIN group. -/
def pgFirstProduct (k : Str) (buys : List PgRow) : Str :=
  match buys.find? (fun r => decide (r.isin = some k)) with
  | some r => r.product
  | none => []

/-- The holding built for group key `k`, `none` when the netted share count
is not positive (the `shares > 0` filter): nets buys minus sells, extracts
the display symbol, consults the price dict and fills the failure defaults
(`currency "EUR"`, `position_value 0`, `source "unknown"`). -/
def pgMkHolding (buys sells : List PgRow) (oracle : Str → Option PgPrice)
    (k : Str) : Option PgHolding :=
  let shs : ℤ := pgBuySharesSum k buys - pgSellSharesSum k sells
  if 0 < shs then
    let prod := pgFirstProduct k buys
    let sym := pgExtractSymbol prod
    let pd := sym.bind oracle
    some
      { isin := k
        company_name := prod
        symbol := sym
        shares_held := shs
        current_price := (pd.map (fun p => p.price))
        currency := match pd with | some p => p.currency | none => str "EUR"
        position_value := match pd with
          | some p => if p.price = 0 then 0 else shs * p.price
          | none => 0
        source := match pd with | some p => p.source | none => str "unknown" }
  else none

/-- The holdings list of `calculate_holdings` on ISIN-adjusted buy rows:
one group per distinct non-null buy ISIN, netted and filtered. -/
def pgHoldingsCore (buys sells : List PgRow) (oracle : Str → Option PgPrice) :
    List PgHolding :=
  (dedupFirst ((buys.filter (fun r => r.isin.isSome)).filterMap (fun r => r.isin))).filterMap
    (pgMkHolding buys sells oracle)

/-- `calculate_holdings` of `DeGiroProcessorPG`. -/
def pgCalculateHoldings (buys sells : List PgRow) (oracle : Str → Option PgPrice) :
    List PgHolding :=
  pgHoldingsCore (pgAdjustBuys buys) sells oracle

/-! ### Lemmas about the dict model and the netting folds -/

theorem posLookup_append (k : Str) (l1 l2 : List (Str × GdPos)) :
    posLookup k (l1 ++ l2) =
      match posLookup k l1 with
      | some v => some v
      | none => posLookup k l2 := by
  induction l1 with
  | nil => simp [posLookup]
  | cons e t ih =>
      by_cases h : e.1 = k <;> simp [posLookup, h, ih]

theorem posLookup_posAddShares_self (k : Str) (n : ℤ) (pos : List (Str × GdPos)) :
    posLookup k (posAddShares k n pos) =
      (posLookup k pos).map (fun p => ⟨p.company_name, p.net_shares + n⟩) := by
  induction pos with
  | nil => simp [posAddShares, posLookup]
  | cons e t ih =>
      by_cases h : e.1 = k <;> simp [posAddShares, posLookup, h, ih]

theorem posLookup_posAddShares_ne {k k' : Str} (h : k ≠ k') (n : ℤ)
    (pos : List (Str × GdPos)) :
    posLookup k (posAddShares k' n pos) = posLookup k pos := by
  induction pos with
  | nil => simp [posAddShares, posLookup]
  | cons e t ih =>
      by_cases he : e.1 = k'
      · have h1 : ¬ (e.1 = k) := by rw [he]; exact fun hh => h hh.symm
        have h2 : ¬ (k' = k) := fun hh => h hh.symm
        simp [posAddShares, posLookup, he, h1, h2]
      · by_cases hek : e.1 = k <;> simp [posAddShares, posLookup, he, hek, h, ih]

theorem posKeys_posAddShares (k : Str) (n : ℤ) (pos : List (Str × GdPos)) :
    (posAddShares k n pos).map Prod.fst = pos.map Prod.fst := by
  induction pos with
  | nil => rfl
  | cons e t ih =>
      by_cases h : e.1 = k <;> simp [posAddShares, h, ih]

theorem posLookup_eq_none_iff (k : Str) (pos : List (Str × GdPos)) :
    posLookup k pos = none ↔ k ∉ pos.map Prod.fst := by
  induction pos with
  | nil => simp [posLookup]
  | cons e t ih =>
      simp only [posLookup, List.map_cons, List.mem_cons]
      by_cases h : e.1 = k
      · rw [if_pos h]
        constructor
        · intro hl; cases hl
        · intro hm; exact absurd (Or.inl h.symm) hm
      · rw [if_neg h, ih]
        constructor
        · intro hm hor
          rcases hor with hor | hor
          · exact h hor.symm
          · exact hm hor
        · intro hm hmem
          exact hm (Or.inr hmem)

theorem posLookup_eq_some_of_mem {k : Str} {v : GdPos} {pos : List (Str × GdPos)}
    (hnd : (pos.map Prod.fst).Nodup) (hm : (k, v) ∈ pos) :
    posLookup k pos = some v := by
  induction pos with
  | nil => cases hm
  | cons e t ih =>
      rcases List.mem_cons.mp hm with h | h
      · subst h; simp [posLookup]
      · have hk : k ∈ t.map Prod.fst := List.mem_map.mpr ⟨(k, v), h, rfl⟩
        have he : ¬ (e.1 = k) := by
          intro hh
          exact (List.nodup_cons.mp hnd).1 (hh ▸ hk)
        simp only [posLookup, he, if_neg, ite_false]
        exact ih (List.nodup_cons.mp hnd).2 h

theorem gdBuySharesSumAt_cons (k : Str) (r : GdBuyRow) (t : List GdBuyRow) :
    gdBuySharesSumAt k (r :: t) =
      (if r.isin = k then (gdShares r.shares : ℤ) else 0) + gdBuySharesSumAt k t := by
  by_cases h : r.isin = k <;> simp [gdBuySharesSumAt, List.filter_cons, h]

theorem gdSellSharesSum_cons (k : Str) (r : GdSellRow) (t : List GdSellRow) :
    gdSellSharesSum k (r :: t) =
      (if r.isin = k then (gdShares r.shares : ℤ) else 0) + gdSellSharesSum k t := by
  by_cases h : r.isin = k <;> simp [gdSellSharesSum, List.filter_cons, h]

theorem posLookup_foldl_buys (buys : List GdBuyRow) :
    ∀ (pos : List (Str × GdPos)) (k : Str),
    posLookup k (buys.foldl gdApplyBuy pos) =
      match posLookup k pos with
      | some p => some ⟨p.company_name, p.net_shares + gdBuySharesSumAt k buys⟩
      | none =>
          match buys.find? (fun r => decide (r.isin = k)) with
          | some r => some ⟨r.product, gdBuySharesSumAt k buys⟩
          | none => none := by
  induction buys with
  | nil =>
      intro pos k
      cases h : posLookup k pos <;> simp [h, gdBuySharesSumAt]
  | cons r t ih =>
      intro pos k
      have step : List.foldl gdApplyBuy pos (r :: t) =
          List.foldl gdApplyBuy (gdApplyBuy pos r) t := rfl
      rw [step, ih]
      by_cases hk : r.isin = k
      · subst hk
        cases hpos : posLookup r.isin pos with
        | some p0 =>
            have h1 : posLookup r.isin (gdApplyBuy pos r) =
                some ⟨p0.company_name, p0.net_shares + (gdShares r.shares : ℤ)⟩ := by
              simp [gdApplyBuy, hpos, posLookup_posAddShares_self]
            rw [h1]
            simp [gdBuySharesSumAt_cons]
            omega
        | none =>
            have h1 : posLookup r.isin (gdApplyBuy pos r) =
                some ⟨r.product, (gdShares r.shares : ℤ)⟩ := by
              simp [gdApplyBuy, hpos, posLookup_append, posLookup]
            rw [h1]
            have hfind : (r :: t).find? (fun x => decide (x.isin = r.isin)) = some r :=
              List.find?_cons_of_pos _ (by simp)
            rw [hfind]
            simp [gdBuySharesSumAt_cons]
      · have hkk : k ≠ r.isin := fun hh => hk hh.symm
        have h1 : posLookup k (gdApplyBuy pos r) = posLookup k pos := by
          cases hpos : posLookup r.isin pos with
          | some p0 => simp [gdApplyBuy, hpos, posLookup_posAddShares_ne hkk]
          | none =>
              rw [gdApplyBuy, hpos, posLookup_append]
              cases hpk : posLookup k pos <;> simp [posLookup, hk]
        rw [h1]
        have hfind : (r :: t).find? (fun x => decide (x.isin = k)) =
            t.find? (fun x => decide (x.isin = k)) :=
          List.find?_cons_of_neg _ (by simp [hk])
        rw [hfind]
        cases hpk : posLookup k pos <;> simp [gdBuySharesSumAt_cons, hk]

theorem posLookup_foldl_sells (sells : List GdSellRow) :
    ∀ (pos : List (Str × GdPos)) (k : Str),
    posLookup k (sells.foldl gdApplySell pos) =
      (posLookup k pos).map
        (fun p => ⟨p.company_name, p.net_shares - gdSellSharesSum k sells⟩) := by
  induction sells with
  | nil =>
      intro pos k
      cases h : posLookup k pos <;> simp [h, gdSellSharesSum]
  | cons s t ih =>
      intro pos k
      have step : List.foldl gdApplySell pos (s :: t) =
          List.foldl gdApplySell (gdApplySell pos s) t := rfl
      rw [step, ih]
      by_cases hk : s.isin = k
      · subst hk
        cases hpos : posLookup s.isin pos with
        | some p0 =>
            have h1 : posLookup s.isin (gdApplySell pos s) =
                some ⟨p0.company_name, p0.net_shares + -(gdShares s.shares : ℤ)⟩ := by
              simp [gdApplySell, hpos, posLookup_posAddShares_self]
            rw [h1]
            simp [gdSellSharesSum_cons]
            omega
        | none =>
            have h1 : posLookup s.isin (gdApplySell pos s) = none := by
              simp [gdApplySell, hpos]
            rw [h1]
            simp
      · have hkk : k ≠ s.isin := fun hh => hk hh.symm
        have h1 : posLookup k (gdApplySell pos s) = posLookup k pos := by
          cases hpos : posLookup s.isin pos with
          | some p0 => simp [gdApplySell, hpos, posLookup_posAddShares_ne hkk]
          | none => simp [gdApplySell, hpos]
        rw [h1]
        cases hpk : posLookup k pos <;> simp [gdSellSharesSum_cons, hk]

theorem nodup_keys_foldl_buys (buys : List GdBuyRow) :
    ∀ pos : List (Str × GdPos), (pos.map Prod.fst).Nodup →
    ((buys.foldl gdApplyBuy pos).map Prod.fst).Nodup := by
  induction buys with
  | nil => intro pos h; exact h
  | cons r t ih =>
      intro pos h
      have step : List.foldl gdApplyBuy pos (r :: t) =
          List.foldl gdApplyBuy (gdApplyBuy pos r) t := rfl
      rw [step]
      apply ih
      cases hpos : posLookup r.isin pos with
      | some p0 =>
          rw [gdApplyBuy, hpos, posKeys_posAddShares]
          exact h
      | none =>
          have hnm : r.isin ∉ pos.map Prod.fst := (posLookup_eq_none_iff _ _).mp hpos
          rw [gdApplyBuy, hpos]
          simp only [List.map_append, List.map_cons, List.map_nil]
          simp [List.nodup_append, h, hnm]

theorem posKeys_foldl_sells (sells : List GdSellRow) :
    ∀ pos : List (Str × GdPos),
    (sells.foldl gdApplySell pos).map Prod.fst = pos.map Prod.fst := by
  induction sells with
  | nil => intro pos; rfl
  | cons s t ih =>
      intro pos
      have step : List.foldl gdApplySell pos (s :: t) =
          List.foldl gdApplySell (gdApplySell pos s) t := rfl
      rw [step, ih]
      cases hpos : posLookup s.isin pos with
      | some p0 => rw [gdApplySell, hpos, posKeys_posAddShares]
      | none => rw [gdApplySell, hpos]

theorem nodup_keys_gdNetPositions (buys : List GdBuyRow) (sells : List GdSellRow) :
    ((gdNetPositions buys sells).map Prod.fst).Nodup := by
  rw [gdNetPositions, posKeys_foldl_sells]
  exact nodup_keys_foldl_buys _ [] (by simp)

theorem gdHeldStocks_spec {buys : List GdBuyRow} {sells : List GdSellRow}
    {k : Str} {e : GdPos} (h : (k, e) ∈ gdHeldStocks buys sells) :
    0 < e.net_shares ∧
    e.net_shares = gdValidBuySharesSum k buys - gdSellSharesSum k sells ∧
    ∃ r, r ∈ buys ∧ gdIsValid r = true ∧ r.isin = k ∧ e.company_name = r.product := by
  have hmf := List.mem_filter.mp h
  have hpos : 0 < e.net_shares := by simpa using hmf.2
  have hnd := nodup_keys_gdNetPositions buys sells
  have hlk := posLookup_eq_some_of_mem hnd hmf.1
  rw [gdNetPositions, posLookup_foldl_sells] at hlk
  cases hb : posLookup k ((buys.filter gdIsValid).foldl gdApplyBuy []) with
  | none => rw [hb] at hlk; cases hlk
  | some p =>
      rw [hb] at hlk
      have he : e = ⟨p.company_name, p.net_shares - gdSellSharesSum k sells⟩ := by
        have := Option.some.inj hlk
        exact this.symm
      rw [posLookup_foldl_buys] at hb
      simp only [posLookup] at hb
      cases hf : (buys.filter gdIsValid).find? (fun r => decide (r.isin = k)) with
      | none => rw [hf] at hb; cases hb
      | some r =>
          rw [hf] at hb
          have hp : p = ⟨r.product, gdBuySharesSumAt k (buys.filter gdIsValid)⟩ :=
            (Option.some.inj hb).symm
          have hrmem := List.mem_of_find?_eq_some hf
          have hrpred : r.isin = k := by
            have := List.find?_some hf
            simpa using this
          have hrval : gdIsValid r = true := (List.mem_filter.mp hrmem).2
          have hrbuys : r ∈ buys := (List.mem_filter.mp hrmem).1
          refine ⟨hpos, ?_, r, hrbuys, hrval, hrpred, ?_⟩
          · rw [he, hp]
            rfl
          · rw [he, hp]

theorem gdBuildStockValue_fields (oracle : Str → Option GdPriceData) (p : Str × GdPos) :
    (gdBuildStockValue oracle p).isin = p.1 ∧
    (gdBuildStockValue oracle p).shares_held = p.2.net_shares := by
  cases h : oracle p.1 <;> simp [gdBuildStockValue, h]

theorem gdStockValues_mem {oracle : Str → Option GdPriceData} {buys : List GdBuyRow}
    {sells : List GdSellRow} {v : StockValue} (h : v ∈ gdStockValues oracle buys sells) :
    ∃ p, p ∈ gdHeldStocks buys sells ∧ v = gdBuildStockValue oracle p ∧
      v.isin = p.1 ∧ v.shares_held = p.2.net_shares := by
  obtain ⟨p, hp, hv⟩ := List.mem_map.mp h
  exact ⟨p, hp, hv.symm, hv ▸ (gdBuildStockValue_fields oracle p).1,
    hv ▸ (gdBuildStockValue_fields oracle p).2⟩

theorem gdValidBuySharesSum_le (k : Str) (buys : List GdBuyRow) :
    gdValidBuySharesSum k buys ≤ gdBuySharesSumAt k buys := by
  induction buys with
  | nil => exact le_refl _
  | cons r t ih =>
      unfold gdValidBuySharesSum at ih ⊢
      rw [gdBuySharesSumAt_cons]
      have h0 : (0 : ℤ) ≤ (gdShares r.shares : ℤ) := Int.ofNat_nonneg _
      by_cases hv : gdIsValid r = true
      · rw [List.filter_cons_of_pos hv, gdBuySharesSumAt_cons]
        by_cases hk : r.isin = k <;> simp [hk] <;> omega
      · rw [List.filter_cons_of_neg (by simpa using hv)]
        by_cases hk : r.isin = k <;> simp [hk] <;> omega

theorem mem_dedupFirst {x : Str} : ∀ {l : List Str}, x ∈ dedupFirst l ↔ x ∈ l := by
  intro l
  induction l with
  | nil => simp [dedupFirst]
  | cons y t ih =>
      simp only [dedupFirst, List.mem_cons, List.mem_filter]
      constructor
      · rintro (rfl | ⟨hx, _⟩)
        · exact Or.inl rfl
        · exact Or.inr (ih.mp hx)
      · rintro (rfl | hx)
        · exact Or.inl rfl
        · by_cases hxy : x = y
          · exact Or.inl hxy
          · exact Or.inr ⟨ih.mpr hx, by simp [hxy]⟩

theorem pgMkHolding_some {buys sells : List PgRow} {oracle : Str → Option PgPrice}
    {k : Str} {h : PgHolding} (hh : pgMkHolding buys sells oracle k = some h) :
    0 < pgBuySharesSum k buys - pgSellSharesSum k sells ∧
    h = { isin := k
          company_name := pgFirstProduct k buys
          symbol := pgExtractSymbol (pgFirstProduct k buys)
          shares_held := pgBuySharesSum k buys - pgSellSharesSum k sells
          current_price :=
            ((pgExtractSymbol (pgFirstProduct k buys)).bind oracle).map (fun p => p.price)
          currency :=
            match (pgExtractSymbol (pgFirstProduct k buys)).bind oracle with
            | some p => p.currency
            | none => str "EUR"
          position_value :=
            match (pgExtractSymbol (pgFirstProduct k buys)).bind oracle with
            | some p =>
                if p.price = 0 then 0
                else ((pgBuySharesSum k buys - pgSellSharesSum k sells : ℤ) : ℚ) * p.price
            | none => 0
          source :=
            match (pgExtractSymbol (pgFirstProduct k buys)).bind oracle with
            | some p => p.source
            | none => str "unknown" } := by
  simp only [pgMkHolding] at hh
  split at hh
  case isTrue hs => exact ⟨hs, (Option.some.inj hh).symm⟩
  case isFalse => cases hh

theorem pgHoldingsCore_mem {buys sells : List PgRow} {oracle : Str → Option PgPrice}
    {h : PgHolding} (hm : h ∈ pgHoldingsCore buys sells oracle) :
    ∃ k, (∃ r, r ∈ buys ∧ r.isin = some k) ∧
      pgMkHolding buys sells oracle k = some h := by
  obtain ⟨k, hk, hmk⟩ := List.mem_filterMap.mp hm
  have hk2 : k ∈ (buys.filter (fun r => r.isin.isSome)).filterMap (fun r => r.isin) :=
    mem_dedupFirst.mp hk
  obtain ⟨r, hr, hri⟩ := List.mem_filterMap.mp hk2
  exact ⟨k, ⟨r, (List.mem_filter.mp hr).1, hri⟩, hmk⟩

theorem roundHalfEven2_eq_self {q : ℚ} {m : ℤ} (h : q * 100 = (m : ℚ)) :
    roundHalfEven2 q = q := by
  have hdpos : (0 : ℤ) < (q.den : ℤ) := by exact_mod_cast q.pos
  have hd : (q.den : ℤ) ≠ 0 := ne_of_gt hdpos
  have hnum : q.num * 100 = m * (q.den : ℤ) := by
    have hq := Rat.num_div_den q
    rw [← hq] at h
    have hden : ((q.den : ℤ) : ℚ) ≠ 0 := by exact_mod_cast hd
    field_simp at h
    exact_mod_cast h
  simp only [roundHalfEven2]
  rw [hnum, Int.mul_fdiv_cancel _ hd]
  have h0 : 2 * (m * (q.den : ℤ) - m * (q.den : ℤ)) = 0 := by ring
  rw [h0, if_pos hdpos, Rat.mkRat_eq_div]
  push_cast
  rw [div_eq_iff (by norm_num : (100 : ℚ) ≠ 0)]
  exact h.symm

theorem ffillAux_get? (xs : List (Option ℚ)) : ∀ (carry : Option ℚ) (i : ℕ),
    (ffillAux carry xs).get? i =
      if i < xs.length then
        some ((xs.take (i + 1)).foldl
          (fun a b => match b with | some v => some v | none => a) carry)
      else none := by
  induction xs with
  | nil => intro carry i; simp [ffillAux]
  | cons x t ih =>
      intro carry i
      cases x with
      | none =>
          cases i with
          | zero => simp [ffillAux]
          | succ j =>
              have : (ffillAux carry (none :: t)).get? (j + 1) =
                  (ffillAux carry t).get? j := rfl
              rw [this, ih]
              simp [Nat.succ_lt_succ_iff]
      | some v =>
          cases i with
          | zero => simp [ffillAux]
          | succ j =>
              have : (ffillAux carry (some v :: t)).get? (j + 1) =
                  (ffillAux (some v) t).get? j := rfl
              rw [this, ih]
              simp [Nat.succ_lt_succ_iff]

/-! ### Claim theorems -/

/-- Concrete buy list: a valid buy of 10 Apple shares. -/
def appleBuys : List GdBuyRow :=
  [⟨str "US0378331005", str "APPLE INC",
    str "Compra 10 APPLE INC@150,25 USD (US0378331005)", some 10, -1503⟩]

/-- Concrete sell list: a later sell of 4 of those shares. -/
def appleSells : List GdSellRow := [⟨str "US0378331005", some 4⟩]

/-- The stock-value row the reconciler emits for the Apple position when the
price lookup fails. -/
def appleFailedValue : StockValue :=
  ⟨str "US0378331005", str "APPLE INC", none, none, none, 6, none, str "failed"⟩

/-- A PG buy-bucket row with positive extracted shares but zero amount
(a stock-split line that matches the `compra` buy pattern): `is_valid` is
false, yet `calculate_holdings` counts its shares. -/
def vmwareSplitRow : PgRow :=
  ⟨some (str "US9285634021"), str "VMWARE INC",
   str "Compra 10 VMWARE Stock Split (US9285634021)", 10, 0⟩

/-- C1 counterexample: on the PG reconciler a buy row with `shares = 10` and
`amount_EUR = 0` (hence `is_valid = false`) still yields a Holding with
`shares_held = 10`, while the claimed formula — valid buy shares minus sell
shares — gives 0. -/
theorem c1_counterexample :
    (pgCalculateHoldings [vmwareSplitRow] [] (fun _ => none)).map
        (fun h => h.shares_held) = [10] ∧
    pgValidBuySharesSum (str "US9285634021") [vmwareSplitRow] -
      pgSellSharesSum (str "US9285634021") [] = 0 ∧
    (10 : ℤ) ≠ 0 := by
  refine ⟨by decide, by decide, by decide⟩

/-- C1 (amended): for every row of the `generate_datasets` reconciler's
output, `shares_held` equals the sum of shares over valid buy rows carrying
that ISIN minus the sum of shares over all sell rows carrying that ISIN
(missing sell totals and null share fields counting as 0); the PG
reconciler's `shares_held` instead equals the sum of shares over all buy
rows carrying the ISIN — valid or not — minus the sell sum. -/
theorem c1_shares_held_roundtrip :
    (∀ (oracle : Str → Option GdPriceData) (buys : List GdBuyRow)
       (sells : List GdSellRow) (v : StockValue),
       v ∈ gdStockValues oracle buys sells →
       v.shares_held = gdValidBuySharesSum v.isin buys - gdSellSharesSum v.isin sells) ∧
    (∀ (buys sells : List PgRow) (oracle : Str → Option PgPrice) (h : PgHolding),
       h ∈ pgCalculateHoldings buys sells oracle →
       h.shares_held =
         pgBuySharesSum h.isin (pgAdjustBuys buys) - pgSellSharesSum h.isin sells) := by
  constructor
  · intro oracle buys sells v hv
    obtain ⟨p, hp, _, hisin, hsh⟩ := gdStockValues_mem hv
    obtain ⟨k, e⟩ := p
    have hspec := gdHeldStocks_spec hp
    rw [hsh, hisin]
    exact hspec.2.1
  · intro buys sells oracle h hm
    rw [pgCalculateHoldings] at hm
    obtain ⟨k, _, hmk⟩ := pgHoldingsCore_mem hm
    obtain ⟨_, rfl⟩ := pgMkHolding_some hmk
    rfl

/-- C1 witness: the Apple position (buy 10, sell 4) nets to 6 shares and the
theorem's formula evaluates accordingly; a concrete PG instance likewise. -/
theorem c1_shares_held_roundtrip_witness :
    (appleFailedValue ∈ gdStockValues (fun _ => none) appleBuys appleSells) ∧
    appleFailedValue.shares_held =
      gdValidBuySharesSum appleFailedValue.isin appleBuys -
        gdSellSharesSum appleFailedValue.isin appleSells :=
  ⟨by decide,
   c1_shares_held_roundtrip.1 (fun _ => none) appleBuys appleSells appleFailedValue
     (by decide)⟩

/-- C3 (confirmed): every emitted Holding has `shares_held > 0`, and an ISIN
whose netted share count is ≤ 0 — whether netted over valid buys (as the
code does) or over all buy rows — yields no Holding, in both reconcilers. -/
theorem c3_no_nonpositive_holdings :
    (∀ (oracle : Str → Option GdPriceData) (buys : List GdBuyRow)
       (sells : List GdSellRow) (v : StockValue),
       v ∈ gdStockValues oracle buys sells → 0 < v.shares_held) ∧
    (∀ (oracle : Str → Option GdPriceData) (buys : List GdBuyRow)
       (sells : List GdSellRow) (k : Str) (v : StockValue),
       gdValidBuySharesSum k buys - gdSellSharesSum k sells ≤ 0 →
       v ∈ gdStockValues oracle buys sells → v.isin ≠ k) ∧
    (∀ (oracle : Str → Option GdPriceData) (buys : List GdBuyRow)
       (sells : List GdSellRow) (k : Str) (v : StockValue),
       gdBuySharesSumAt k buys - gdSellSharesSum k sells ≤ 0 →
       v ∈ gdStockValues oracle buys sells → v.isin ≠ k) ∧
    (∀ (buys sells : List PgRow) (oracle : Str → Option PgPrice) (h : PgHolding),
       h ∈ pgCalculateHoldings buys sells oracle → 0 < h.shares_held) ∧
    (∀ (buys sells : List PgRow) (oracle : Str → Option PgPrice) (k : Str)
       (h : PgHolding),
       pgBuySharesSum k (pgAdjustBuys buys) - pgSellSharesSum k sells ≤ 0 →
       h ∈ pgCalculateHoldings buys sells oracle → h.isin ≠ k) := by
  refine ⟨?_, ?_, ?_, ?_, ?_⟩
  · intro oracle buys sells v hv
    obtain ⟨p, hp, _, _, hsh⟩ := gdStockValues_mem hv
    obtain ⟨k, e⟩ := p
    rw [hsh]
    exact (gdHeldStocks_spec hp).1
  · intro oracle buys sells k v hle hv heq
    obtain ⟨p, hp, _, hisin, hsh⟩ := gdStockValues_mem hv
    obtain ⟨k', e⟩ := p
    have hspec := gdHeldStocks_spec hp
    have hk : k' = k := by rw [← heq, hisin]
    subst hk
    have := hspec.2.1
    omega
  · intro oracle buys sells k v hle hv heq
    obtain ⟨p, hp, _, hisin, hsh⟩ := gdStockValues_mem hv
    obtain ⟨k', e⟩ := p
    have hspec := gdHeldStocks_spec hp
    have hk : k' = k := by rw [← heq, hisin]
    subst hk
    have h1 := hspec.2.1
    have h2 := gdValidBuySharesSum_le k' buys
    have h3 := hspec.1
    omega
  · intro buys sells oracle h hm
    rw [pgCalculateHoldings] at hm
    obtain ⟨k, _, hmk⟩ := pgHoldingsCore_mem hm
    obtain ⟨hs, rfl⟩ := pgMkHolding_some hmk
    exact hs
  · intro buys sells oracle k h hle hm heq
    rw [pgCalculateHoldings] at hm
    obtain ⟨k', _, hmk⟩ := pgHoldingsCore_mem hm
    obtain ⟨hs, rfl⟩ := pgMkHolding_some hmk
    have hk : k' = k := heq
    subst hk
    omega

/-- A second valid buy whose position is later sold out completely. -/
def soldOutBuys : List GdBuyRow :=
  appleBuys ++
    [⟨str "US88160R1014", str "TESLA INC",
      str "Compra 5 TESLA INC@200 USD (US88160R1014)", some 5, -1000⟩]

/-- Sells that close the Tesla position entirely. -/
def soldOutSells : List GdSellRow :=
  appleSells ++ [⟨str "US88160R1014", some 5⟩]

/-- C3 witness: with the Tesla position fully sold (net 0 ≤ 0), the surviving
Apple row is positive and does not carry the Tesla ISIN. -/
theorem c3_no_nonpositive_holdings_witness :
    (appleFailedValue ∈ gdStockValues (fun _ => none) soldOutBuys soldOutSells) ∧
    0 < appleFailedValue.shares_held ∧
    gdValidBuySharesSum (str "US88160R1014") soldOutBuys -
      gdSellSharesSum (str "US88160R1014") soldOutSells ≤ 0 ∧
    appleFailedValue.isin ≠ str "US88160R1014" :=
  ⟨by decide,
   c3_no_nonpositive_holdings.1 (fun _ => none) soldOutBuys soldOutSells
     appleFailedValue (by decide),
   by decide,
   c3_no_nonpositive_holdings.2.1 (fun _ => none) soldOutBuys soldOutSells
     (str "US88160R1014") appleFailedValue (by decide) (by decide)⟩

/-- C10 (confirmed): every Holding's ISIN occurs in a (valid, for the
`generate_datasets` pipeline) buy row; a sell whose ISIN is not a key of
`net_positions` leaves the positions untouched; and every PG holding's ISIN
occurs in a buy row. -/
theorem c10_sells_without_buys_ignored :
    (∀ (oracle : Str → Option GdPriceData) (buys : List GdBuyRow)
       (sells : List GdSellRow) (v : StockValue),
       v ∈ gdStockValues oracle buys sells →
       ∃ r, r ∈ buys ∧ gdIsValid r = true ∧ r.isin = v.isin) ∧
    (∀ (pos : List (Str × GdPos)) (s : GdSellRow),
       posLookup s.isin pos = none → gdApplySell pos s = pos) ∧
    (∀ (buys sells : List PgRow) (oracle : Str → Option PgPrice) (h : PgHolding),
       h ∈ pgCalculateHoldings buys sells oracle →
       ∃ r, r ∈ pgAdjustBuys buys ∧ r.isin = some h.isin) := by
  refine ⟨?_, ?_, ?_⟩
  · intro oracle buys sells v hv
    obtain ⟨p, hp, _, hisin, _⟩ := gdStockValues_mem hv
    obtain ⟨k, e⟩ := p
    obtain ⟨_, _, r, hr, hval, hri, _⟩ := gdHeldStocks_spec hp
    exact ⟨r, hr, hval, by rw [hri, hisin]⟩
  · intro pos s h
    rw [gdApplySell, h]
  · intro buys sells oracle h hm
    rw [pgCalculateHoldings] at hm
    obtain ⟨k, ⟨r, hr, hri⟩, hmk⟩ := pgHoldingsCore_mem hm
    obtain ⟨_, rfl⟩ := pgMkHolding_some hmk
    exact ⟨r, hr, hri⟩

/-- C10 witness: a sell of an ISIN never bought leaves the net positions of
the Apple example unchanged, and the emitted Apple row's ISIN does occur in a
valid buy row. -/
theorem c10_sells_without_buys_ignored_witness :
    (posLookup (str "IE00B4BNMY34")
        [(str "US0378331005", (⟨str "APPLE INC", 10⟩ : GdPos))] = none) ∧
    gdApplySell [(str "US0378331005", (⟨str "APPLE INC", 10⟩ : GdPos))]
        ⟨str "IE00B4BNMY34", some 3⟩ =
      [(str "US0378331005", (⟨str "APPLE INC", 10⟩ : GdPos))] :=
  ⟨by decide,
   c10_sells_without_buys_ignored.2.1
     [(str "US0378331005", (⟨str "APPLE INC", 10⟩ : GdPos))]
     ⟨str "IE00B4BNMY34", some 3⟩ (by decide)⟩

/-- C6 counterexample: on a failed lookup the `generate_datasets` reconciler
writes `position_value = None`, not 0 — the emitted row is
`(position_value, source) = (None, "failed")`, and `None ≠ 0`. -/
theorem c6_counterexample :
    (gdStockValues (fun _ => none) appleBuys appleSells).map
        (fun v => (v.position_value, v.source)) = [(none, str "failed")] ∧
    (none : Option ℚ) ≠ some 0 := by
  exact ⟨by decide, by decide⟩

/-- C6 (amended): a failed or missing lookup never drops a Holding — the
`generate_datasets` reconciler emits one row per held stock with all price
fields and `position_value` null (not 0) and `source = "failed"`, successful
rows being untouched; the PG reconciler's failure shape instead keeps
`current_price` null, defaults `currency` to "EUR", sets `position_value`
to 0 and `source` to "unknown". -/
theorem c6_failed_lookup_degrades :
    (∀ (oracle : Str → Option GdPriceData) (buys : List GdBuyRow)
       (sells : List GdSellRow),
       (gdStockValues oracle buys sells).length = (gdHeldStocks buys sells).length) ∧
    (∀ (oracle : Str → Option GdPriceData) (buys : List GdBuyRow)
       (sells : List GdSellRow) (v : StockValue),
       v ∈ gdStockValues oracle buys sells → oracle v.isin = none →
       v.symbol = none ∧ v.current_price = none ∧ v.currency = none ∧
         v.position_value = none ∧ v.source = str "failed") ∧
    (∀ (oracle : Str → Option GdPriceData) (buys : List GdBuyRow)
       (sells : List GdSellRow) (v : StockValue) (p : GdPriceData),
       v ∈ gdStockValues oracle buys sells → oracle v.isin = some p →
       v.current_price = some p.price ∧ v.currency = some p.currency ∧
         v.position_value = some ((v.shares_held : ℚ) * p.price) ∧ v.source = p.source) ∧
    (∀ (buys sells : List PgRow) (oracle : Str → Option PgPrice) (h : PgHolding),
       h ∈ pgCalculateHoldings buys sells oracle → h.symbol.bind oracle = none →
       h.current_price = none ∧ h.currency = str "EUR" ∧ h.position_value = 0 ∧
         h.source = str "unknown") := by
  refine ⟨?_, ?_, ?_, ?_⟩
  · intro oracle buys sells
    exact List.length_map _ _
  · intro oracle buys sells v hv hnone
    obtain ⟨p, hp, hbuild, hisin, _⟩ := gdStockValues_mem hv
    rw [hisin] at hnone
    rw [hbuild]
    simp [gdBuildStockValue, hnone]
  · intro oracle buys sells v pd hv hsome
    obtain ⟨p, hp, hbuild, hisin, hsh⟩ := gdStockValues_mem hv
    rw [hisin] at hsome
    rw [hbuild] at hsh ⊢
    simp [gdBuildStockValue, hsome] at hsh ⊢
  · intro buys sells oracle h hm hnone
    rw [pgCalculateHoldings] at hm
    obtain ⟨k, _, hmk⟩ := pgHoldingsCore_mem hm
    obtain ⟨_, rfl⟩ := pgMkHolding_some hmk
    have hb : (pgExtractSymbol (pgFirstProduct k (pgAdjustBuys buys))).bind oracle =
        none := hnone
    simp [hb]

/-- C6 witness: in the Apple example with an all-failing lookup the single
held stock is still emitted, with the amended failure shape. -/
theorem c6_failed_lookup_degrades_witness :
    ((fun _ => (none : Option GdPriceData)) appleFailedValue.isin = none) ∧
    (appleFailedValue ∈ gdStockValues (fun _ => none) appleBuys appleSells) ∧
    (appleFailedValue.symbol = none ∧ appleFailedValue.current_price = none ∧
      appleFailedValue.currency = none ∧ appleFailedValue.position_value = none ∧
      appleFailedValue.source = str "failed") :=
  ⟨rfl, by decide,
   c6_failed_lookup_degrades.2.1 (fun _ => none) appleBuys appleSells
     appleFailedValue (by decide) rfl⟩


/-- C2 counterexample: a record containing both a "compra" token and a
"stock split" token gets the description label "compra - stock split" but its
category is "compra" — the same plain-buy category as an ordinary purchase —
and the PG pattern classifier files it under `buys`; moreover the PG buckets
are not disjoint ("Comisión de compra" lands in both `buys` and `fees`). -/
theorem c2_counterexample :
    gdDescriptionLabel (str "Compra 10 DEGIRO Stock Split (IE00B4BNMY34)") =
      str "compra - stock split" ∧
    gdCategory (str "Compra 10 DEGIRO Stock Split (IE00B4BNMY34)") = str "compra" ∧
    gdCategory (str "Compra 4 APPLE INC@150,25 USD (US0378331005)") = str "compra" ∧
    pgBuckets (pgDesc (str "Compra 10 DEGIRO Stock Split (IE00B4BNMY34)")) =
      [str "buys"] ∧
    pgBuckets (pgDesc (str "Comisión de compra")) = [str "buys", str "fees"] := by
  refine ⟨by decide, by decide, by decide, by decide, by decide⟩

/-- C2 (amended): the `generate_datasets` classifier is a function, so each
record gets exactly one description label and one category; a record whose
lowercased description contains "stock split" never receives the plain-buy
label "Compra", and one that also contains "compra " (and matches no
higher-priority transfer or sell rule) receives the stock-split label
"Compra - Stock split" — but the downstream category of such a record is the
plain-buy category "compra", and the PG classifier's buckets may overlap. -/
theorem c2_stock_split_classification :
    (∀ (x c1 c2 : Str), gdCategory x = c1 → gdCategory x = c2 → c1 = c2) ∧
    (∀ x : Str, containsLC (str "stock split") (pyLowerStr x) = true →
       processDescription x ≠ str "Compra") ∧
    (∀ x : Str,
       containsLC (str "compra ") (pyLowerStr x) = true →
       containsLC (str "stock split") (pyLowerStr x) = true →
       containsLC (str "transferir a su cuenta de efectivo") (pyLowerStr x) = false →
       containsLC (str "transferir desde su cuenta de efectivo ") (pyLowerStr x) = false →
       containsLC (str "venta ") (pyLowerStr x) = false →
       processDescription x = str "Compra - Stock split") ∧
    gdCategory (str "Compra 10 DEGIRO Stock Split (IE00B4BNMY34)") = str "compra" := by
  have hcore : ∀ y : Str, containsLC (str "stock split") y = true →
      processDescriptionCore y ≠ str "Compra" := by
    intro y hss
    unfold processDescriptionCore
    by_cases h1 : containsLC (str "transferir a su cuenta de efectivo") y = true
    · simp only [h1, if_true]; decide
    · rw [if_neg h1]
      by_cases h2 : containsLC (str "transferir desde su cuenta de efectivo ") y = true
      · simp only [h2, if_true]; decide
      · rw [if_neg h2]
        simp only [hss, Bool.not_true, Bool.and_false, Bool.false_and, Bool.and_true,
          Bool.false_eq_true, if_false]
        by_cases hv : containsLC (str "venta ") y = true
        · simp only [hv, if_true]; decide
        · have hv' : containsLC (str "venta ") y = false := by
            rwa [Bool.not_eq_true] at hv
          simp only [hv', Bool.false_and, Bool.false_eq_true, if_false]
          by_cases hcp : containsLC (str "compra ") y = true
          · simp only [hcp, if_true]; decide
          · have hcp' : containsLC (str "compra ") y = false := by
              rwa [Bool.not_eq_true] at hcp
            simp only [hcp', Bool.false_and, Bool.false_eq_true, if_false]
            by_cases hc17 : containsLC (str "comisión de conectividad ") y = true
            · simp only [hc17, if_true]; decide
            · rw [if_neg hc17]
              by_cases hc18 : containsLC (str "flatex deposit") y = true
              · simp only [hc18, if_true]; decide
              · rw [if_neg hc18]
                by_cases hc19 : y = str "ingreso"
                · simp only [hc19, if_true]; decide
                · rw [if_neg hc19]
                  intro hEq
                  rw [hEq] at hss
                  exact absurd (length_le_of_containsLC hss) (by decide)
  refine ⟨?_, ?_, ?_, by decide⟩
  · intro x c1 c2 h1 h2
    exact h1.symm.trans h2
  · intro x hss
    exact hcore (pyLowerStr x) hss
  · intro x hc hss hn1 hn2 hnv
    show processDescriptionCore (pyLowerStr x) = str "Compra - Stock split"
    generalize pyLowerStr x = y at hc hss hn1 hn2 hnv ⊢
    unfold processDescriptionCore
    simp only [hn1, hn2, hss, hc, hnv, Bool.not_true, Bool.and_false, Bool.false_and,
      Bool.and_true, Bool.true_and, Bool.false_eq_true, if_false, eq_self_iff_true,
      if_true]

/-- C2 witness: the stock-split example discharges every hypothesis of the
amended statement and receives the stock-split label, never the plain one. -/
theorem c2_stock_split_classification_witness :
    (containsLC (str "compra ")
        (pyLowerStr (str "Compra 10 DEGIRO Stock Split (IE00B4BNMY34)")) = true) ∧
    (containsLC (str "stock split")
        (pyLowerStr (str "Compra 10 DEGIRO Stock Split (IE00B4BNMY34)")) = true) ∧
    processDescription (str "Compra 10 DEGIRO Stock Split (IE00B4BNMY34)") =
      str "Compra - Stock split" ∧
    processDescription (str "Compra 10 DEGIRO Stock Split (IE00B4BNMY34)") ≠
      str "Compra" :=
  ⟨by decide, by decide,
   c2_stock_split_classification.2.2.1 (str "Compra 10 DEGIRO Stock Split (IE00B4BNMY34)")
     (by decide) (by decide) (by decide) (by decide) (by decide),
   c2_stock_split_classification.2.1 (str "Compra 10 DEGIRO Stock Split (IE00B4BNMY34)")
     (by decide)⟩

/-- C7 counterexample: in the PG classifier the description "ingreso"
matches none of the five pattern sets, so the record lands in no bucket at
all — there is no "other" category there and the row is dropped (while the
`generate_datasets` classifier does give it a category). -/
theorem c7_counterexample :
    pgBuckets (pgDesc (str "Ingreso")) = [] ∧
    gdCategory (str "Ingreso") = str "ingreso" := by
  exact ⟨by decide, by decide⟩

/-- C7 (amended): `process_transaction` is total and sends any record whose
lowercased description matches none of its keyword rules to "Otro"; the PG
`categorize_transactions`, by contrast, has no fallback bucket — a record
matching none of its five mask patterns appears in no category at all. -/
theorem c7_unmatched_falls_to_other :
    (∀ x : Str,
       containsLC (str "compra") (pyLowerStr x) = false →
       containsLC (str "venta") (pyLowerStr x) = false →
       containsLC (str "stock split") (pyLowerStr x) = false →
       containsLC (str "cambio de divisa") (pyLowerStr x) = false →
       containsLC (str "cash sweep transfer") (pyLowerStr x) = false →
       containsLC (str "ingreso") (pyLowerStr x) = false →
       containsLC (str "withdrawal") (pyLowerStr x) = false →
       containsLC (str "costes") (pyLowerStr x) = false →
       containsLC (str "coste de la acción") (pyLowerStr x) = false →
       containsLC (str "stamp duty") (pyLowerStr x) = false →
       containsLC (str "dividendo") (pyLowerStr x) = false →
       processTransaction x = str "Otro") ∧
    (∀ x : Str, pgBuyMask x = false → pgSellMask x = false →
       pgDividendMask x = false → pgDepositMask x = false → pgFeeMask x = false →
       pgBuckets x = []) := by
  constructor
  · intro x h1 h2 h3 h4 h5 h6 h7 h8 h9 h10 h11
    show processTransactionCore (pyLowerStr x) = str "Otro"
    generalize pyLowerStr x = y at h1 h2 h3 h4 h5 h6 h7 h8 h9 h10 h11 ⊢
    unfold processTransactionCore
    simp only [h1, h2, h3, h4, h5, h6, h7, h8, h9, h10, h11, Bool.false_eq_true,
      if_false, Bool.or_self, Bool.false_and, Bool.and_false]
  · intro x h1 h2 h3 h4 h5
    unfold pgBuckets
    simp [h1, h2, h3, h4, h5]

/-- C7 witness: a description matching no rule in either classifier. -/
theorem c7_unmatched_falls_to_other_witness :
    processTransaction (str "hello world") = str "Otro" ∧
    pgBuckets (str "hello world") = [] :=
  ⟨c7_unmatched_falls_to_other.1 (str "hello world") (by decide) (by decide) (by decide)
     (by decide) (by decide) (by decide) (by decide) (by decide) (by decide) (by decide)
     (by decide),
   c7_unmatched_falls_to_other.2 (str "hello world") (by decide) (by decide) (by decide)
     (by decide) (by decide)⟩

/-- C5 counterexample: the Alibaba ADR has a US ISIN
(`US01609W1027`, so `country = "US"`), yet its lone dividend row is marked
"verified" — the claim says every lone US dividend row is "unverified". -/
theorem c5_counterexample :
    countryOf ⟨some (str "US01609W1027"), str "ALIBABA GROUP HOLDING LTD",
        str "dividendo"⟩ = str "US" ∧
    verifyGroupStatus ⟨some (str "US01609W1027"), str "ALIBABA GROUP HOLDING LTD",
        str "dividendo"⟩ [] = str "verified" ∧
    str "verified" ≠ str "unverified" := by
  refine ⟨by decide, by decide, by decide⟩

/-- C5 (amended): for a US-country ISIN whose product name does not contain
"alibaba", a (date, product) group of exactly two rows labelled "dividendo"
and "retención del dividendo" (in either order) is verified, and a lone row
is unverified; the Alibaba ADR is the code's explicit exception. -/
theorem c5_dividend_verification :
    (∀ r1 r2 : DivRow, countryOf r1 = str "US" →
       containsLC (str "alibaba") (pyLowerStr r1.product) = false →
       pyLowerStr r1.description = str "dividendo" →
       pyLowerStr r2.description = str "retención del dividendo" →
       verifyGroupStatus r1 [r2] = str "verified") ∧
    (∀ r1 r2 : DivRow, countryOf r1 = str "US" →
       containsLC (str "alibaba") (pyLowerStr r1.product) = false →
       pyLowerStr r1.description = str "retención del dividendo" →
       pyLowerStr r2.description = str "dividendo" →
       verifyGroupStatus r1 [r2] = str "verified") ∧
    (∀ r : DivRow, countryOf r = str "US" →
       containsLC (str "alibaba") (pyLowerStr r.product) = false →
       verifyGroupStatus r [] = str "unverified") := by
  refine ⟨?_, ?_, ?_⟩
  · intro r1 r2 hc halb hd1 hd2
    unfold verifyGroupStatus
    simp [hc, halb, hd1, hd2]
  · intro r1 r2 hc halb hd1 hd2
    unfold verifyGroupStatus
    simp [hc, halb, hd1, hd2]
  · intro r hc halb
    unfold verifyGroupStatus
    simp [hc, halb]

/-- C5 witness: a concrete Apple dividend/withholding pair is verified and a
lone Apple dividend row is unverified. -/
theorem c5_dividend_verification_witness :
    (countryOf ⟨some (str "US0378331005"), str "APPLE INC", str "Dividendo"⟩ =
        str "US") ∧
    verifyGroupStatus ⟨some (str "US0378331005"), str "APPLE INC", str "Dividendo"⟩
        [⟨some (str "US0378331005"), str "APPLE INC", str "Retención del dividendo"⟩] =
      str "verified" ∧
    verifyGroupStatus ⟨some (str "US0378331005"), str "APPLE INC", str "Dividendo"⟩ [] =
      str "unverified" :=
  ⟨by decide,
   c5_dividend_verification.1
     ⟨some (str "US0378331005"), str "APPLE INC", str "Dividendo"⟩
     ⟨some (str "US0378331005"), str "APPLE INC", str "Retención del dividendo"⟩
     (by decide) (by decide) (by decide) (by decide),
   c5_dividend_verification.2.2
     ⟨some (str "US0378331005"), str "APPLE INC", str "Dividendo"⟩
     (by decide) (by decide)⟩

/-- C4 (confirmed): the extractor's price normalization parses `"1.208,88"`
to `1208.88` and `"61,82"` to `61.82`; and on every token containing a comma
it agrees with the spec's rule — strip `.` as thousands separator and use `,`
as the decimal point when both occur, else use `,` as the decimal point. -/
theorem c4_price_normalization :
    parsePriceToken (str "1.208,88") = some (120888 / 100 : ℚ) ∧
    parsePriceToken (str "61,82") = some (6182 / 100 : ℚ) ∧
    (∀ s : Str, containsLC (str ",") s = true →
       normalizePrice s = specNormalizePrice s) := by
  refine ⟨?_, ?_, ?_⟩
  · have h : parsePriceToken (str "1.208,88") = some (mkRat 120888 100) := by decide
    rw [h, Rat.mkRat_eq_div]
    norm_num
  · have h : parsePriceToken (str "61,82") = some (mkRat 6182 100) := by decide
    rw [h, Rat.mkRat_eq_div]
    norm_num
  · intro s hcomma
    unfold normalizePrice specNormalizePrice
    by_cases hdot : containsLC (str ".") s = true
    · rw [if_pos (by rw [hdot, hcomma]; rfl), if_pos (by rw [hdot, hcomma]; rfl)]
      show pyReplaceChar ',' ['.'] (pyReplaceChar '.' [] s) = _
      rw [pyReplaceChar_delete, pyReplaceChar_map]
    · have hdot' : containsLC (str ".") s = false := by rwa [Bool.not_eq_true] at hdot
      rw [if_neg (by simp [hdot']), if_neg (by simp [hdot']), if_pos hcomma]
      show pyReplaceChar ',' ['.'] s = _
      rw [pyReplaceChar_map]

/-- C4 witness: the only-comma token "9,5" satisfies the hypothesis and the
source normalization agrees with the spec rule on it. -/
theorem c4_price_normalization_witness :
    (containsLC (str ",") (str "9,5") = true) ∧
    normalizePrice (str "9,5") = specNormalizePrice (str "9,5") :=
  ⟨by decide, c4_price_normalization.2.2 (str "9,5") (by decide)⟩

/-- C9 (confirmed, implicit): a price token containing "." but no "," keeps
the dot as its decimal separator — normalization is the identity there — so
"@150.25 USD" yields the price 150.25. -/
theorem c9_dot_only_decimal :
    extractPriceFromBuysDescription
        (str "Compra 10 APPLE@150.25 USD (US0378331005)") = some (15025 / 100 : ℚ) ∧
    (∀ s : Str, containsLC (str ",") s = false → normalizePrice s = s) := by
  constructor
  · have h : extractPriceFromBuysDescription
        (str "Compra 10 APPLE@150.25 USD (US0378331005)") = some (mkRat 15025 100) := by
      decide
    rw [h, Rat.mkRat_eq_div]
    norm_num
  · intro s hcomma
    unfold normalizePrice
    rw [if_neg (by simp [hcomma])]
    exact pyReplaceChar_id_of_not_mem ',' (str ".") hcomma

/-- C9 witness: the dot-only token "150.25" is left unchanged. -/
theorem c9_dot_only_decimal_witness :
    (containsLC (str ",") (str "150.25") = false) ∧
    normalizePrice (str "150.25") = str "150.25" :=
  ⟨by decide, c9_dot_only_decimal.2 (str "150.25") (by decide)⟩

/-- C8 counterexample: the conversion is not the identity on EUR amounts —
`apply_currency_conversion_rates` rounds to two decimals, so the EUR amount
1.005 becomes 1.0; and the PG loader copies a USD amount to `amount_EUR`
without any conversion at all (100 USD at rate 1.08 stays 100). -/
theorem c8_counterexample :
    gdAmountEUR (mkRat 201 200) (str "EUR") 1 = 1 ∧
    gdAmountEUR (mkRat 201 200) (str "EUR") 1 ≠
      specConvertedAmount (mkRat 201 200) (str "EUR") 1 ∧
    pgAmountEUR 100 = 100 ∧
    pgAmountEUR 100 ≠ specConvertedAmount 100 (str "USD") (mkRat 27 25) := by
  refine ⟨by decide, ?_, by decide, ?_⟩
  · have h1 : gdAmountEUR (mkRat 201 200) (str "EUR") 1 = 1 := by decide
    have h2 : specConvertedAmount (mkRat 201 200) (str "EUR") 1 = mkRat 201 200 := by
      rw [specConvertedAmount, if_pos rfl]
    rw [h1, h2]
    decide
  · rw [pgAmountEUR, specConvertedAmount, if_neg (by decide), Rat.mkRat_eq_div]
    norm_num

/-- C8 (amended): in `generate_datasets`, `amount_eur` equals the raw amount
rounded half-even to two decimals when the currency is EUR (so it is the raw
amount unchanged whenever that amount has at most two decimals), and the raw
amount divided by the day-matched `EUR_to_USD` rate and rounded to two
decimals when the currency is USD; the per-row rate is the merge of the rate
table forward-filled over rows with no rate of their own.  The PG loader
instead copies the raw amount into `amount_EUR` unconverted. -/
theorem c8_currency_conversion :
    (∀ (n : ℤ) (r : ℚ), gdAmountEUR ((n : ℚ) / 100) (str "EUR") r = (n : ℚ) / 100) ∧
    (∀ a r : ℚ, gdAmountEUR a (str "EUR") r = roundHalfEven2 a) ∧
    (∀ a r : ℚ, gdAmountEUR a (str "USD") r = roundHalfEven2 (a / r)) ∧
    (∀ a : ℚ, pgAmountEUR a = a) ∧
    (∀ (rates : List (ℕ × ℚ)) (dates : List ℕ) (i : ℕ), i < dates.length →
       (gdRateColumn rates dates).get? i =
         some (lastSome ((dates.take (i + 1)).map (ratesLookup rates)))) := by
  refine ⟨?_, ?_, ?_, ?_, ?_⟩
  · intro n r
    rw [gdAmountEUR, if_pos rfl]
    have h : ((n : ℚ) / 100) * 100 = ((n : ℤ) : ℚ) := by
      field_simp
    exact roundHalfEven2_eq_self h
  · intro a r
    rw [gdAmountEUR, if_pos rfl]
  · intro a r
    rw [gdAmountEUR, if_neg (by decide)]
  · intro a
    rfl
  · intro rates dates i hi
    rw [gdRateColumn, ffill, ffillAux_get?]
    rw [if_pos (by simpa using hi)]
    rw [lastSome, List.map_take]

/-- C8 witness: the rate column of a concrete three-day ledger with a missing
middle rate forward-fills it, matching the last available rate. -/
theorem c8_currency_conversion_witness :
    (1 < ([0, 1, 2] : List ℕ).length) ∧
    (gdRateColumn [(0, 2), (2, 3)] [0, 1, 2]).get? 1 =
      some (lastSome ((([0, 1, 2] : List ℕ).take 2).map (ratesLookup [(0, 2), (2, 3)]))) :=
  ⟨by decide, c8_currency_conversion.2.2.2.2 [(0, 2), (2, 3)] [0, 1, 2] 1 (by decide)⟩
